import Mathlib

/-!
# Verification of the tech-docs-generator ingestion and orchestration core

Shallow embedding of the repository's core components:

* `src/repository-analyzer.ts` — local and remote ingestion (`SourceWalker`,
  `RemoteTreeFetcher`), binary detection, truncation, inclusion filters and
  the importance ranking;
* `src/agents/coordinator-agent.ts` — the stage orchestrator, the review
  parsing, the artifact splitter (`parseSpecifications`) and its fallback
  functional document;
* `src/index.ts` — the outer wrapper that rescales inner progress.

Strings are modelled as `List Char`.  The JavaScript string methods used by
the source (`includes`, `split`, `trim`, `startsWith`, `replace`,
`toLowerCase`) are modelled by the executable functions below, matching the
semantics of the corresponding method.  Effectful boundaries (filesystem,
HTTP, the text-generation capability, the mail transport) are passed in as
explicit data or function parameters; machine numbers are `Nat`/`ℚ`.
-/

/-- JavaScript `String.prototype.includes`: `jsIncludes s sub` is `true` iff
`sub` occurs contiguously inside `s`. -/
def jsIncludes : List Char → List Char → Bool
  | [], sub => sub.isEmpty
  | c :: rest, sub => sub.isPrefixOf (c :: rest) || jsIncludes rest sub

/-- The splitter underlying JavaScript `String.prototype.split` with a
nonempty separator: `splitFirst sep s = some (pre, post)` when the leftmost
occurrence of `sep` in `s` has `pre` before it and `post` after it, and
`none` when `sep` does not occur.  `parts[0]` and `parts[1]` of
`s.split(sep)` are recovered from (iterated applications of) this
function. -/
def splitFirst (sep : List Char) : List Char → Option (List Char × List Char)
  | [] => if sep.isEmpty then some ([], []) else none
  | c :: rest =>
    if sep.isPrefixOf (c :: rest) then some ([], (c :: rest).drop sep.length)
    else
      match splitFirst sep rest with
      | some (pre, post) => some (c :: pre, post)
      | none => none

/-- Whitespace as stripped by JavaScript `String.prototype.trim` (ASCII
whitespace plus no-break space and the BOM; the exotic Unicode space
separators play no role in any claim). -/
def isJsWhitespace (c : Char) : Bool :=
  c = ' ' || c = '\t' || c = '\n' || c = '\r' ||
    c.toNat = 11 || c.toNat = 12 || c.toNat = 160 || c.toNat = 65279

/-- JavaScript `String.prototype.trim`. -/
def jsTrim (s : List Char) : List Char :=
  ((s.dropWhile isJsWhitespace).reverse.dropWhile isJsWhitespace).reverse

/-- JavaScript `String.prototype.startsWith`. -/
def jsStartsWith (s pre : List Char) : Bool :=
  pre.isPrefixOf s

/-- JavaScript `String.prototype.replace` with a (nonempty) string pattern:
only the first occurrence is replaced. -/
def replaceFirst (s pat repl : List Char) : List Char :=
  match splitFirst pat s with
  | none => s
  | some (pre, post) => pre ++ repl ++ post

/-- JavaScript `String.prototype.toLowerCase` (the paths and keywords the
source lowercases are ASCII). -/
def jsToLower (s : List Char) : List Char :=
  s.map Char.toLower

/-- `path.basename`: the component after the last slash (the relative paths
the analyzer builds never carry a trailing slash). -/
def basename (p : List Char) : List Char :=
  (p.reverse.takeWhile (fun c => c != '/')).reverse

/-- `path.extname`: the suffix of the base name starting at its last dot;
a base name whose only dot is the leading one (hidden file) has the empty
extension. -/
def extname (p : List Char) : List Char :=
  let b := basename p
  let afterRev := b.reverse.takeWhile (fun c => c != '.')
  if afterRev.length = b.length then []
  else if afterRev.length + 1 = b.length then []
  else '.' :: afterRev.reverse

/-- Root-relative path of a child entry, as `path.relative(basePath, itemPath)`
produces it during the walk: the entry name for the root level, otherwise
`base ++ "/" ++ name`. -/
def joinPath (base name : List Char) : List Char :=
  if base.isEmpty then name else base ++ '/' :: name

/-! ## repository-analyzer.ts -/

/-- `RepositoryAnalyzer.supportedExtensions` (repository-analyzer.ts 6-11). -/
def supportedExtensions : List (List Char) :=
  [".js".data, ".ts".data, ".jsx".data, ".tsx".data, ".py".data, ".java".data,
   ".cs".data, ".cpp".data, ".c".data, ".h".data, ".php".data, ".rb".data,
   ".go".data, ".rs".data, ".swift".data, ".kt".data, ".scala".data,
   ".clj".data, ".hs".data, ".md".data, ".txt".data, ".json".data,
   ".yml".data, ".yaml".data, ".xml".data, ".html".data, ".css".data,
   ".scss".data, ".sql".data, ".sh".data, ".bat".data, ".ps1".data,
   ".dockerfile".data, ".tf".data]

/-- The deny-list of `shouldSkipPath` (repository-analyzer.ts 216-220). -/
def skipPatterns : List (List Char) :=
  ["node_modules".data, ".git".data, ".vscode".data, ".idea".data,
   "dist".data, "build".data, "target".data, "bin".data, "obj".data,
   "__pycache__".data, ".pytest_cache".data, "coverage".data,
   ".nyc_output".data, "logs".data, "tmp".data, "temp".data,
   ".DS_Store".data, "Thumbs.db".data]

/-- `shouldSkipPath` (repository-analyzer.ts 215-225).  As in the source, the
`startsWith('.')` test sits inside the per-pattern callback. -/
def shouldSkipPath (relativePath : List Char) : Bool :=
  skipPatterns.any (fun pattern =>
    jsIncludes relativePath pattern || jsStartsWith relativePath (".".data))

/-- The "important filename" fragments shared by both inclusion filters
(repository-analyzer.ts 152-156 and 237-241). -/
def importantFiles : List (List Char) :=
  ["readme".data, "license".data, "changelog".data, "contributing".data,
   "dockerfile".data, "makefile".data, "rakefile".data, "gemfile".data,
   "package.json".data, "composer.json".data, "requirements.txt".data,
   "setup.py".data, "pom.xml".data, "build.gradle".data]

/-- `shouldIncludeFile` (repository-analyzer.ts 227-246). -/
def shouldIncludeFile (filename : List Char) (size : Nat) : Bool :=
  let ext := jsToLower (extname filename)
  if 1048576 < size then false
  else if supportedExtensions.contains ext then true
  else importantFiles.any (fun important => jsIncludes (jsToLower filename) important)

/-- `shouldIncludeGithubFile` (repository-analyzer.ts 138-161). -/
def shouldIncludeGithubFile (filePath : List Char) (size : Nat) : Bool :=
  if 1048576 < size then false
  else if shouldSkipPath filePath then false
  else
    let filename := basename filePath
    let ext := jsToLower (extname filename)
    if supportedExtensions.contains ext then true
    else importantFiles.any (fun important => jsIncludes (jsToLower filename) important)

/-- The control characters counted by the binary heuristic: the regex class
`[\x00-\x08\x0E-\x1F\x7F]` of `isBinaryContent`. -/
def isControlChar (c : Char) : Bool :=
  c.toNat ≤ 8 || (14 ≤ c.toNat && c.toNat ≤ 31) || c.toNat = 127

/-- `isBinaryContent` (repository-analyzer.ts 267-271): classify as binary when
the control-character count exceeds 10% of the length.  The JavaScript
comparison `count > length * 0.1` is modelled exactly over the rationals,
i.e. as `10 * count > length`. -/
def isBinaryContent (content : List Char) : Bool :=
  decide (content.length < 10 * (content.filter isControlChar).length)

/-- The truncation marker appended to over-long contents. -/
def truncationMarker : List Char :=
  "\n... [truncated]".data

/-- `readFileContent` (repository-analyzer.ts 248-265), applied to the text a
successful `fs.readFile(..., 'utf-8')` returned (a read error yields `null`
before this logic runs).  Note the source truncates over-long content and
returns it before the binary check. -/
def readFileContent (content : List Char) : Option (List Char) :=
  if 50000 < content.length then some (content.take 50000 ++ truncationMarker)
  else if isBinaryContent content then none
  else some content

/-- The content processing of `fetchGithubFileContent` on a base64-encoded
blob after decoding (repository-analyzer.ts 117-128): binary contents are
dropped, then over-long contents are truncated with the marker. -/
def processRemoteContent (content : List Char) : Option (List Char) :=
  if isBinaryContent content then none
  else if 50000 < content.length then some (content.take 50000 ++ truncationMarker)
  else some content

/-- `languageMap` of `detectLanguage` (repository-analyzer.ts 276-308). -/
def languageMap : List (List Char × List Char) :=
  [(".js".data, "javascript".data), (".jsx".data, "javascript".data),
   (".ts".data, "typescript".data), (".tsx".data, "typescript".data),
   (".py".data, "python".data), (".java".data, "java".data),
   (".cs".data, "csharp".data), (".cpp".data, "cpp".data),
   (".c".data, "c".data), (".h".data, "c".data),
   (".php".data, "php".data), (".rb".data, "ruby".data),
   (".go".data, "go".data), (".rs".data, "rust".data),
   (".swift".data, "swift".data), (".kt".data, "kotlin".data),
   (".scala".data, "scala".data), (".clj".data, "clojure".data),
   (".hs".data, "haskell".data), (".md".data, "markdown".data),
   (".html".data, "html".data), (".css".data, "css".data),
   (".scss".data, "scss".data), (".sql".data, "sql".data),
   (".json".data, "json".data), (".yml".data, "yaml".data),
   (".yaml".data, "yaml".data), (".xml".data, "xml".data),
   (".sh".data, "shell".data), (".bat".data, "batch".data),
   (".ps1".data, "powershell".data)]

/-- `detectLanguage` (repository-analyzer.ts 273-311). -/
def detectLanguage (filename : List Char) : List Char :=
  let ext := jsToLower (extname filename)
  match languageMap.lookup ext with
  | some language => language
  | none => "unknown".data

/-- The fixed "code extension" set of `getFileImportanceScore`
(repository-analyzer.ts 329). -/
def codeExts : List (List Char) :=
  [".js".data, ".ts".data, ".py".data, ".java".data, ".cs".data,
   ".cpp".data, ".go".data, ".rs".data]

/-- `getFileImportanceScore` (repository-analyzer.ts 313-333). -/
def getFileImportanceScore (filePath : List Char) : Nat :=
  let filename := jsToLower (basename filePath)
  if jsIncludes filename ("readme".data) then 100
  else if jsIncludes filename ("package.json".data) then 95
  else if jsIncludes filename ("dockerfile".data) then 90
  else if jsIncludes filename ("main.".data) || jsIncludes filename ("index.".data) then 85
  else if jsIncludes filename ("app.".data) || jsIncludes filename ("server.".data) then 80
  else if extname filename = ".md".data then 70
  else if jsIncludes filename ("config".data) then 65
  else if jsIncludes filename ("setup".data) || jsIncludes filename ("install".data) then 60
  else if codeExts.contains (extname filename) then 50
  else 30

/-- `FileInfo` (base-agent.ts): the FileRecord of the spec. -/
structure FileInfo where
  path : List Char
  content : List Char
  language : List Char
  size : Nat
deriving DecidableEq

/-- The importance sort shared by both ingestion paths (repository-analyzer.ts
83-87 and 169-173).  JavaScript `Array.prototype.sort` with the comparator
`(a, b) => scoreOf(b) - scoreOf(a)` is (per ES2019) a stable sort placing
`a` before `b` exactly when `a`'s score is larger; a stable sort for that
total preorder is extensionally unique, so `mergeSort` with the matching
relation is the same function. -/
def rankFiles (files : List FileInfo) : List FileInfo :=
  files.mergeSort (fun a b =>
    decide (getFileImportanceScore b.path ≤ getFileImportanceScore a.path))

/-- A local directory tree, the input `walkDirectory` explores through
`fs.readdir`/`fs.stat`: an entry is a readable file with its size and decoded
text content, or a directory with its listed children. -/
inductive FsEntry where
  | file (name : List Char) (size : Nat) (content : List Char)
  | dir (name : List Char) (entries : List FsEntry)

mutual

/-- The loop body of `walkDirectory` (repository-analyzer.ts 176-213) over the
entries listed in one directory; `base` is that directory's root-relative
path and `depth` its recursion depth (the root call has depth 0). -/
def walkItems (base : List Char) (depth : Nat) : List FsEntry → List FileInfo
  | [] => []
  | item :: rest => walkItem base depth item ++ walkItems base depth rest

/-- Processing of one listed entry inside `walkDirectory`: the skip test on
the root-relative path, then either recursion into a subdirectory (guarded by
the depth cap of the recursive call) or the inclusion filter and content read
for a file. -/
def walkItem (base : List Char) (depth : Nat) : FsEntry → List FileInfo
  | .file name size content =>
    if shouldSkipPath (joinPath base name) then []
    else if shouldIncludeFile name size then
      match readFileContent content with
      | some text =>
        [{ path := joinPath base name, content := text,
           language := detectLanguage name, size := size }]
      | none => []
    else []
  | .dir name entries =>
    if shouldSkipPath (joinPath base name) then []
    else if 10 < depth + 1 then []
    else walkItems (joinPath base name) (depth + 1) entries

end

/-- `analyzeLocalFolder` (repository-analyzer.ts 163-174): walk the tree, then
sort by importance. -/
def analyzeLocalFolder (root : List FsEntry) : List FileInfo :=
  rankFiles (walkItems [] 0 root)

/-- One entry of the recursive tree listing returned by the remote API
(`treeData.tree`); a missing `size` is modelled as 0, matching the source's
`item.size || 0`. -/
structure TreeEntry where
  typ : List Char
  path : List Char
  size : Nat
  sha : Nat
deriving DecidableEq

/-- The transport-level outcome of the one recursive tree-listing call. -/
structure TreeResponse where
  ok : Bool
  status : Nat
  statusText : List Char
  tree : List TreeEntry

/-- The outcome of one blob-content call, after transport and base64→text
decoding: `none` models a non-success response or a thrown error. -/
structure DecodedBlob where
  encodingIsBase64 : Bool
  decoded : List Char

/-- `fetchGithubFileContent` (repository-analyzer.ts 95-136) for one blob:
a failed request yields `null`; a response whose encoding is not base64
yields `null`; otherwise the decoded text is processed (binary drop, then
truncation). -/
def fetchGithubFileContent (blobs : Nat → Option DecodedBlob) (sha : Nat) :
    Option (List Char) :=
  match blobs sha with
  | none => none
  | some blob =>
    if blob.encodingIsBase64 then processRemoteContent blob.decoded else none

/-- The message of the error thrown on a non-success tree-listing response:
`GitHub API error: ${status} ${statusText}` (repository-analyzer.ts 57). -/
def githubErrorMessage (status : Nat) (statusText : List Char) : List Char :=
  "GitHub API error: ".data ++ (Nat.repr status).data ++ ' ' :: statusText

/-- `fetchGithubRepoContents` (repository-analyzer.ts 39-93): on a successful
listing, filter the blobs with the inclusion rule, cap at 100 entries, fetch
each content (failures dropped), and rank; on a non-success listing, fail
with the status-carrying message. -/
def fetchGithubRepoContents (resp : TreeResponse) (blobs : Nat → Option DecodedBlob) :
    Except (List Char) (List FileInfo) :=
  if resp.ok then
    let eligible := (resp.tree.filter (fun item =>
      item.typ == "blob".data && shouldIncludeGithubFile item.path item.size)).take 100
    let files := eligible.filterMap (fun item =>
      match fetchGithubFileContent blobs item.sha with
      | some content =>
        some { path := item.path, content := content,
               language := detectLanguage item.path,
               size := if item.size = 0 then content.length else item.size }
      | none => none)
    .ok (rankFiles files)
  else .error (githubErrorMessage resp.status resp.statusText)

/-- The failure taxonomy surfaced by `analyzeGithubRepo`. -/
inductive RepoError where
  | repositoryNotFoundOrAccessDenied
  | authenticationRequired
  | other (message : List Char)
deriving DecidableEq

/-- The catch-block of `analyzeGithubRepo` (repository-analyzer.ts 27-36):
classify the thrown message by substring search, `404` first, then
`401`/`403`, otherwise rethrow the original error. -/
def classifyAnalyzeError (message : List Char) : RepoError :=
  if jsIncludes message ("404".data) then .repositoryNotFoundOrAccessDenied
  else if jsIncludes message ("401".data) || jsIncludes message ("403".data) then
    .authenticationRequired
  else .other message

/-- `analyzeGithubRepo` (repository-analyzer.ts 13-37) after URL parsing
(owner/repo extraction and the credential header do not affect the modelled
behaviour). -/
def analyzeGithubRepo (resp : TreeResponse) (blobs : Nat → Option DecodedBlob) :
    Except RepoError (List FileInfo) :=
  match fetchGithubRepoContents resp blobs with
  | .ok files => .ok files
  | .error message => .error (classifyAnalyzeError message)

/-! ## coordinator-agent.ts -/

/-- The literal separator marker the artifact splitter looks for
(coordinator-agent.ts 123). -/
def specMarker : List Char :=
  "<!-- FUNCTIONAL_SPEC_START -->".data

/-- The label on which `reviewAnalysis` splits the review response
(coordinator-agent.ts 114). -/
def docAnalysisLabel : List Char :=
  "DOCUMENTATION ANALYSIS:".data

/-- The label `reviewAnalysis` strips from the first part
(coordinator-agent.ts 116). -/
def codeAnalysisLabel : List Char :=
  "CODE ANALYSIS:".data

/-- `generateFallbackFunctionalSpec` (coordinator-agent.ts 163-189): the fixed,
input-independent fallback functional document. -/
def fallbackFunctionalSpec : List Char :=
  ("<!DOCTYPE html>\n<html>\n<head>\n    <title>Functional Specification</title>\n    <style>\n        body \x7b font-family: Arial, sans-serif; line-height: 1.6; margin: 20px; \x7d\n        h1 \x7b color: #2c3e50; border-bottom: 2px solid #3498db; padding-bottom: 10px; \x7d\n        h2 \x7b color: #34495e; margin-top: 30px; \x7d\n        .requirement \x7b background: #ecf0f1; padding: 15px; border-left: 4px solid #3498db; margin: 10px 0; \x7d\n    </style>\n</head>\n<body>\n    <h1>Functional Specification</h1>\n    <h2>Overview</h2>\n    <p>This document outlines the functional requirements and specifications for the analyzed system.</p>\n\n    <div class=\"requirement\">\n        <h3>Core Functionality</h3>\n        <p>The system provides core functionality based on the analyzed codebase.</p>\n    </div>\n\n    <h2>Requirements</h2>\n    <p>Detailed functional requirements based on code analysis.</p>\n</body>\n</html>").data

/-- The response-parsing step of `reviewAnalysis` (coordinator-agent.ts
113-118): split the response on `DOCUMENTATION ANALYSIS:`; `parts[0]` has any
`CODE ANALYSIS:` label removed (first occurrence) and is trimmed, the
original `codeAnalysis` being used only when that is empty; `parts[1]` is
trimmed, the original `docAnalysis` being used when `parts[1]` is absent or
trims to empty. -/
def reviewAnalysisParse (enhancedAnalysis codeAnalysis docAnalysis : List Char) :
    List Char × List Char :=
  let part0 :=
    match splitFirst docAnalysisLabel enhancedAnalysis with
    | none => enhancedAnalysis
    | some (pre, _) => pre
  let part1 : Option (List Char) :=
    match splitFirst docAnalysisLabel enhancedAnalysis with
    | none => none
    | some (_, rest) =>
      some (match splitFirst docAnalysisLabel rest with
            | none => rest
            | some (pre, _) => pre)
  let codeOut := jsTrim (replaceFirst part0 codeAnalysisLabel [])
  (if codeOut.isEmpty then codeAnalysis else codeOut,
   match part1 with
   | none => docAnalysis
   | some p => if (jsTrim p).isEmpty then docAnalysis else jsTrim p)

/-- The metadata of `AnalysisResult` (base-agent.ts 17-25): exactly the four
fields the source interface declares. -/
structure Metadata where
  filesAnalyzed : Nat
  codeLanguages : List (List Char)
  frameworks : List (List Char)
  architecture : List Char
deriving DecidableEq

/-- `AnalysisResult` (base-agent.ts 15-26). -/
structure AnalysisResult where
  technicalSpec : List Char
  functionalSpec : List Char
  metadata : Metadata
deriving DecidableEq

/-- `[...new Set(xs)]`: deduplication keeping first occurrences (JavaScript
`Set` iterates in insertion order). -/
def dedupKeepFirst (xs : List (List Char)) : List (List Char) :=
  xs.foldl (fun acc x => if acc.contains x then acc else acc ++ [x]) []

/-- The keyword→label table of `extractFrameworks` (coordinator-agent.ts
147-158), in source order. -/
def frameworkTable : List (List Char × List Char) :=
  [("react".data, "React".data), ("angular".data, "Angular".data),
   ("vue".data, "Vue.js".data), ("express".data, "Express.js".data),
   ("django".data, "Django".data), ("flask".data, "Flask".data),
   ("spring".data, "Spring".data), (".net".data, ".NET".data),
   ("fastapi".data, "FastAPI".data), ("next".data, "Next.js".data),
   ("nuxt".data, "Nuxt.js".data)]

/-- `extractFrameworks` (coordinator-agent.ts 143-161): case-insensitive
substring search over the space-joined concatenation of all contents; the
chain of `if (...) push(...)` statements appends labels in table order. -/
def extractFrameworks (files : List FileInfo) : List (List Char) :=
  let content := jsToLower (List.intercalate (" ".data) (files.map (fun f => f.content)))
  dedupKeepFirst (frameworkTable.filterMap (fun kv =>
    if jsIncludes content kv.1 then some kv.2 else none))

/-- `parseSpecifications` (coordinator-agent.ts 121-141): split the combined
generation output on the marker; `parts[0]` trimmed (the whole untrimmed
input when that trim is empty) becomes the technical document, `parts[1]`
trimmed (the fallback document when `parts[1]` is absent or trims to empty)
becomes the functional document; metadata is derived alongside. -/
def parseSpecifications (specifications : List Char) (files : List FileInfo) :
    AnalysisResult :=
  let part0 :=
    match splitFirst specMarker specifications with
    | none => specifications
    | some (pre, _) => pre
  let part1 : Option (List Char) :=
    match splitFirst specMarker specifications with
    | none => none
    | some (_, rest) =>
      some (match splitFirst specMarker rest with
            | none => rest
            | some (pre, _) => pre)
  let technicalSpec := if (jsTrim part0).isEmpty then specifications else jsTrim part0
  let functionalSpec :=
    match part1 with
    | none => fallbackFunctionalSpec
    | some p => if (jsTrim p).isEmpty then fallbackFunctionalSpec else jsTrim p
  { technicalSpec := technicalSpec,
    functionalSpec := functionalSpec,
    metadata :=
      { filesAnalyzed := files.length,
        codeLanguages := dedupKeepFirst
          ((files.map (fun f => f.language)).filter (fun l => l != "unknown".data)),
        frameworks := extractFrameworks files,
        architecture := "Multi-tier".data } }

/-- `DocumentationOptions` (coordinator-agent.ts 7-10). -/
structure DocumentationOptions where
  sendEmail : Bool
  recipientEmail : Option (List Char)

/-- The `projectInfo` argument of `generateDocumentation`. -/
structure ProjectInfo where
  name : List Char
  description : Option (List Char)

/-- The external capabilities the coordinator calls into (§6 of the spec):
the two analysis agents, the raw text-generation call used by the review
stage, the specification generator, and the delivery capability
(`EmailAgent.sendDocumentation`, which catches its own failures and reports
success as a boolean). -/
structure PipelineCapabilities where
  codeAnalyze : List FileInfo → List Char
  docAnalyze : List FileInfo → List Char
  generateText : List Char → List Char → List Char
  specGenerate : List Char → List Char → ProjectInfo → List Char
  sendDocumentation : List Char → List Char → List Char → List Char → Metadata → Bool

/-- The system prompt of the review stage (coordinator-agent.ts 108-109). -/
def reviewSystemPrompt : List Char :=
  ("You are a senior technical lead responsible for reviewing and enhancing technical analysis. \n    Your goal is to ensure comprehensive, accurate, and insightful analysis that bridges technical implementation with business requirements.").data

/-- The user prompt of the review stage (coordinator-agent.ts 92-106). -/
def mkReviewPrompt (codeAnalysis docAnalysis : List Char) : List Char :=
  ("As a senior technical lead, review and enhance the following analysis:\n\nCODE ANALYSIS:\n").data
    ++ codeAnalysis
    ++ ("\n\nDOCUMENTATION ANALYSIS:\n").data
    ++ docAnalysis
    ++ ("\n\nPlease:\n1. Identify any gaps or inconsistencies\n2. Synthesize the information from both analyses\n3. Provide additional insights that might have been missed\n4. Ensure the analysis is comprehensive and accurate\n\nReturn the enhanced analysis maintaining the same structure but with improved insights.").data

/-- `reviewAnalysis` (coordinator-agent.ts 87-119): invoke the
text-generation capability on the combined prompt and parse its response. -/
def reviewAnalysis (cap : PipelineCapabilities) (codeAnalysis docAnalysis : List Char) :
    List Char × List Char :=
  reviewAnalysisParse (cap.generateText reviewSystemPrompt (mkReviewPrompt codeAnalysis docAnalysis))
    codeAnalysis docAnalysis

/-- JavaScript truthiness of the optional recipient string: `undefined` and
the empty string are falsy. -/
def jsTruthyString : Option (List Char) → Bool
  | none => false
  | some s => !s.isEmpty

/-- `CoordinatorAgent.generateDocumentation` (coordinator-agent.ts 27-76) on a
run whose stages all return.  The progress callback is modelled by also
returning the list of `(stage, percentage)` invocations in order;
percentages are rationals (JavaScript numbers — every value arising in this
pipeline is exact).  The boolean returned by the delivery capability is
bound and then ignored, exactly as in the source, which discards the awaited
value. -/
def generateDocumentation (cap : PipelineCapabilities) (files : List FileInfo)
    (projectInfo : ProjectInfo) (options : DocumentationOptions) :
    AnalysisResult × List (List Char × ℚ) :=
  let codeAnalysis := cap.codeAnalyze files
  let docAnalysis := cap.docAnalyze files
  let reviewed := reviewAnalysis cap codeAnalysis docAnalysis
  let specifications := cap.specGenerate reviewed.1 reviewed.2 projectInfo
  let result := parseSpecifications specifications files
  let emailRequested := options.sendEmail && jsTruthyString options.recipientEmail
  let _deliveryOutcome :=
    if emailRequested then
      some (cap.sendDocumentation ((options.recipientEmail).getD []) projectInfo.name
        result.technicalSpec result.functionalSpec result.metadata)
    else none
  (result,
   [("Analyzing code structure and architecture...".data, (15 : ℚ)),
    ("Analyzing existing documentation...".data, (30 : ℚ)),
    ("Reviewing and synthesizing analysis...".data, (50 : ℚ)),
    ("Generating technical specifications...".data, (70 : ℚ)),
    ("Finalizing documentation...".data, (85 : ℚ))]
   ++ (if emailRequested then [("Sending documentation via email...".data, (95 : ℚ))] else [])
   ++ [("Documentation generation complete!".data, (100 : ℚ))])

/-! ## index.ts -/

/-- `TechDocsGenerator.generateFromGithub` (index.ts 13-38).  URL string and
credential are consumed before the modelled behaviour starts; the outer
wrapper emits 5, then (after a successful listing) 10, and forwards each
inner progress value rescaled by `10 + progress * 0.9`.  On an ingestion
failure the error propagates and only the first waypoint was emitted. -/
def generateFromGithub (cap : PipelineCapabilities) (resp : TreeResponse)
    (blobs : Nat → Option DecodedBlob) (projectInfo : ProjectInfo)
    (options : DocumentationOptions) :
    Except RepoError AnalysisResult × List (List Char × ℚ) :=
  match analyzeGithubRepo resp blobs with
  | .error e => (.error e, [("Cloning repository...".data, (5 : ℚ))])
  | .ok files =>
    let inner := generateDocumentation cap files projectInfo options
    (.ok inner.1,
     [("Cloning repository...".data, (5 : ℚ)), ("Starting analysis...".data, (10 : ℚ))]
       ++ inner.2.map (fun sp => (sp.1, 10 + sp.2 * (9 / 10))))

/-! ## Concrete inputs used by the claim theorems -/

/-- A 50,001-character content consisting only of NUL characters: longer than
the truncation bound and classified binary by the §4.2 heuristic. -/
def longBinaryContent : List Char :=
  List.replicate 50001 (Char.ofNat 0)

/-- A concrete capability record whose analysis stages return empty text and
whose delivery capability reports the given outcome. -/
def trivialCapabilities (deliverySucceeds : Bool) : PipelineCapabilities :=
  { codeAnalyze := fun _ => [],
    docAnalyze := fun _ => [],
    generateText := fun _ _ => [],
    specGenerate := fun _ _ _ => [],
    sendDocumentation := fun _ _ _ _ _ => deliverySucceeds }

/-! ## Auxiliary lemmas: occurrence search -/

/-- `List.isPrefixOf` agrees with the prefix order. -/
theorem isPrefixOf_true (l₁ l₂ : List Char) : l₁.isPrefixOf l₂ = true ↔ l₁ <+: l₂ :=
  List.isPrefixOf_iff_prefix

/-- Two prefixes of the same list are comparable. -/
theorem prefix_total {l₁ l₂ l₃ : List Char} (h1 : l₁ <+: l₃) (h2 : l₂ <+: l₃) :
    l₁ <+: l₂ ∨ l₂ <+: l₁ :=
  List.prefix_or_prefix_of_prefix h1 h2

/-- A prefix occurs as a contiguous run. -/
theorem occurs_of_isPre {l₁ l₂ : List Char} (h : l₁ <+: l₂) : l₁ <:+: l₂ := by
  obtain ⟨t, ht⟩ := h
  exact ⟨[], t, by simpa using ht⟩

/-- An occurrence in the tail is an occurrence. -/
theorem occurs_cons_extend {l a' : List Char} {c : Char} (h : l <:+: a') :
    l <:+: c :: a' := by
  obtain ⟨s, t, hst⟩ := h
  refine ⟨c :: s, t, ?_⟩
  simp only [List.cons_append, List.append_assoc] at hst ⊢
  rw [hst]

/-- A suffix of the tail is a suffix of the whole list. -/
theorem suffix_cons_extend {l a' : List Char} {c : Char} (h : l <:+ a') :
    l <:+ c :: a' := by
  obtain ⟨u, hu⟩ := h
  exact ⟨c :: u, by rw [List.cons_append, hu]⟩

/-- An occurrence on the left extends over an appended tail. -/
theorem occurs_append_left {l a b : List Char} (h : l <:+: a) : l <:+: a ++ b := by
  obtain ⟨s, t, hst⟩ := h
  exact ⟨s, t ++ b, by rw [← hst]; simp [List.append_assoc]⟩

/-- `jsIncludes` decides occurrence as a contiguous substring. -/
theorem jsIncludes_iff (s sub : List Char) : jsIncludes s sub = true ↔ sub <:+: s := by
  induction s with
  | nil =>
    simp only [jsIncludes, List.isEmpty_iff, List.infix_nil]
  | cons c rest ih =>
    simp only [jsIncludes, Bool.or_eq_true, ih, List.infix_cons_iff]
    rw [isPrefixOf_true]

/-- `jsIncludes s sub = false` states exactly that `sub` does not occur. -/
theorem jsIncludes_false_iff (s sub : List Char) :
    jsIncludes s sub = false ↔ ¬ sub <:+: s := by
  rw [← jsIncludes_iff]
  cases jsIncludes s sub <;> simp

/-- Decomposition of an occurrence inside an append: it lies in the left part,
in the right part, or straddles the boundary (a nonempty take is a suffix of
the left part while the matching drop is a prefix of the right part). -/
theorem occurrence_split {sub a b : List Char} (h : sub <:+: a ++ b) :
    sub <:+: a ∨ sub <:+: b ∨
      ∃ k, 0 < k ∧ k < sub.length ∧ sub.take k <:+ a ∧ sub.drop k <+: b := by
  induction a with
  | nil =>
    right; left; simpa using h
  | cons c a' ih =>
    rw [List.cons_append, List.infix_cons_iff] at h
    rcases h with hp | hi
    · rw [← List.cons_append] at hp
      rcases prefix_total hp (List.prefix_append (c :: a') b) with h1 | h2
      · exact Or.inl (occurs_of_isPre h1)
      · obtain ⟨rest, hrest⟩ := h2
        by_cases hr : rest = []
        · subst hr
          rw [List.append_nil] at hrest
          left
          rw [← hrest]
        · right; right
          obtain ⟨t, ht⟩ := hp
          rw [← hrest, List.append_assoc] at ht
          refine ⟨(c :: a').length, by simp, ?_, ?_, ?_⟩
          · rw [← hrest, List.length_append]
            have hpos : 0 < rest.length := List.length_pos.mpr hr
            omega
          · rw [← hrest, List.take_left]
          · rw [← hrest, List.drop_left]
            exact ⟨t, List.append_cancel_left ht⟩
    · rcases ih hi with h1 | h2 | ⟨k, hk0, hkl, hka, hkb⟩
      · exact Or.inl (occurs_cons_extend h1)
      · exact Or.inr (Or.inl h2)
      · exact Or.inr (Or.inr ⟨k, hk0, hkl, suffix_cons_extend hka, hkb⟩)

/-- Sufficient conditions for the absence of an occurrence in an append. -/
theorem not_occurs_append {sub a b : List Char} (ha : ¬ sub <:+: a) (hb : ¬ sub <:+: b)
    (hstr : ∀ k, 0 < k → k < sub.length → ¬ (sub.take k <:+ a ∧ sub.drop k <+: b)) :
    ¬ sub <:+: a ++ b := by
  intro h
  rcases occurrence_split h with h1 | h2 | ⟨k, hk0, hkl, hka, hkb⟩
  · exact ha h1
  · exact hb h2
  · exact hstr k hk0 hkl ⟨hka, hkb⟩

/-- A nonempty prefix of a cons starts with its head. -/
theorem head_of_prefix_cons {y : List Char} {c : Char} {l : List Char}
    (h : y <+: c :: l) (hy : y ≠ []) : y.head? = some c := by
  obtain ⟨t, ht⟩ := h
  cases y with
  | nil => exact absurd rfl hy
  | cons d y' =>
    rw [List.cons_append] at ht
    injection ht with h1 _
    simp [h1]

/-- A nonempty suffix ends with the last element of the whole list. -/
theorem getLast_of_suffix {y l : List Char} (h : y <:+ l) (hy : y ≠ []) :
    l.getLast? = y.getLast? := by
  obtain ⟨c, hc⟩ : ∃ d, y.getLast? = some d := by
    cases hg : y.getLast? with
    | none => exact absurd (List.getLast?_eq_none_iff.mp hg) hy
    | some d => exact ⟨d, rfl⟩
  obtain ⟨u, hu⟩ := h
  rw [← hu, List.getLast?_append, hc]
  simp

/-- When the (nonempty) separator does not occur, `splitFirst` finds nothing. -/
theorem splitFirst_eq_none_of_absent (sep : List Char) (hsep : sep ≠ []) :
    ∀ s : List Char, ¬ sep <:+: s → splitFirst sep s = none := by
  intro s
  induction s with
  | nil =>
    intro _
    simp [splitFirst, List.isEmpty_iff, hsep]
  | cons c rest ih =>
    intro h
    rw [List.infix_cons_iff] at h
    push_neg at h
    obtain ⟨h1, h2⟩ := h
    have hb : sep.isPrefixOf (c :: rest) = false := by
      cases hbc : sep.isPrefixOf (c :: rest)
      · rfl
      · exact absurd ((isPrefixOf_true sep (c :: rest)).mp hbc) h1
    simp [splitFirst, hb, ih h2]

/-- If the separator has no self-overlap and does not occur in `before`, then
the leftmost occurrence of it in `before ++ (sep ++ after)` is the explicitly
appended one, so `splitFirst` recovers `(before, after)`. -/
theorem splitFirst_append_first (sep : List Char) (hsep : sep ≠ [])
    (hov : ∀ t, t < sep.length → 0 < t →
      sep.drop t ≠ sep.take (sep.length - t)) :
    ∀ before after : List Char, ¬ sep <:+: before →
      splitFirst sep (before ++ (sep ++ after)) = some (before, after) := by
  intro before
  induction before with
  | nil =>
    intro after _
    rw [List.nil_append]
    cases hs : sep with
    | nil => exact absurd hs hsep
    | cons c sep' =>
      subst hs
      rw [List.cons_append]
      have hpre : (c :: sep').isPrefixOf (c :: (sep' ++ after)) = true := by
        rw [isPrefixOf_true, ← List.cons_append]
        exact List.prefix_append _ _
      simp only [splitFirst, hpre, if_true]
      rw [← List.cons_append, List.drop_left]
  | cons c bs ih =>
    intro after hb
    have hbs : ¬ sep <:+: bs := fun hx => hb (occurs_cons_extend hx)
    have hnp : ¬ sep <+: (c :: bs) ++ (sep ++ after) := by
      intro hp
      rcases prefix_total hp (List.prefix_append (c :: bs) (sep ++ after)) with h1 | h2
      · exact hb (occurs_of_isPre h1)
      · obtain ⟨rest, hrest⟩ := h2
        by_cases hr : rest = []
        · subst hr
          rw [List.append_nil] at hrest
          apply hb
          rw [← hrest]
        · obtain ⟨t2, ht2⟩ := hp
          nth_rewrite 1 [← hrest] at ht2
          rw [List.append_assoc] at ht2
          have hrp : rest <+: sep ++ after := ⟨t2, List.append_cancel_left ht2⟩
          have hL : sep.length = (c :: bs).length + rest.length := by
            rw [← hrest, List.length_append]
          have hrpos : 0 < rest.length := List.length_pos.mpr hr
          have hrsep : rest <+: sep := by
            rcases prefix_total hrp (List.prefix_append sep after) with h3 | h4
            · exact h3
            · exfalso
              have hle1 := h4.length_le
              simp only [List.length_cons] at hL
              omega
          have hdrop : sep.drop (c :: bs).length = rest := by
            rw [← hrest]
            exact List.drop_left _ _
          have htake : rest = sep.take rest.length := List.prefix_iff_eq_take.mp hrsep
          have hlen2 : rest.length = sep.length - (c :: bs).length := by omega
          refine hov (c :: bs).length (by simp only [List.length_cons] at hL ⊢; omega)
            (by simp) ?_
          rw [hdrop, htake, hlen2]
    have hbool : sep.isPrefixOf (c :: (bs ++ (sep ++ after))) = false := by
      cases hbc : sep.isPrefixOf (c :: (bs ++ (sep ++ after)))
      · rfl
      · exfalso
        apply hnp
        rw [List.cons_append]
        exact (isPrefixOf_true _ _).mp hbc
    rw [List.cons_append]
    simp only [splitFirst, hbool, Bool.false_eq_true, if_false]
    rw [ih after hbs]

/-- The separator marker has no self-overlap: no nonempty proper suffix of it
is one of its prefixes. -/
theorem specMarker_overlap_free :
    ∀ t, t < specMarker.length → 0 < t →
      specMarker.drop t ≠ specMarker.take (specMarker.length - t) := by
  decide

/-- Absence propagation into the tree-listing error message: a search string
that has no occurrence in the fixed prefix, the status digits, the status
text, or a single space, and whose nonempty takes never end with a space and
whose nonempty drops never start with one, does not occur in
`githubErrorMessage status statusText`. -/
theorem message_no_sub (sub statusText : List Char) (status : Nat)
    (hA : jsIncludes ("GitHub API error: ".data) sub = false)
    (hR : jsIncludes ((Nat.repr status).data) sub = false)
    (hT : jsIncludes statusText sub = false)
    (hsp : jsIncludes ([' ']) sub = false)
    (hstr : ∀ k, k < sub.length → 0 < k → (sub.take k).getLast? ≠ some ' ')
    (hhd : ∀ k, k < sub.length → 0 < k → (sub.drop k).head? ≠ some ' ') :
    jsIncludes (githubErrorMessage status statusText) sub = false := by
  rw [jsIncludes_false_iff]
  unfold githubErrorMessage
  apply not_occurs_append
  · apply not_occurs_append
    · exact (jsIncludes_false_iff _ _).mp hA
    · exact (jsIncludes_false_iff _ _).mp hR
    · intro k hk0 hkl hand
      obtain ⟨hsuf, _⟩ := hand
      have hlen : (sub.take k).length = k := by
        rw [List.length_take]
        omega
      have hne : sub.take k ≠ [] := by
        intro hnil
        rw [hnil] at hlen
        simp at hlen
        omega
      have hlast := getLast_of_suffix hsuf hne
      refine hstr k hkl hk0 ?_
      rw [← hlast]
      decide
  · rw [← List.singleton_append]
    apply not_occurs_append
    · exact (jsIncludes_false_iff _ _).mp hsp
    · exact (jsIncludes_false_iff _ _).mp hT
    · intro k hk0 hkl hand
      obtain ⟨hsuf, _⟩ := hand
      have hlen : (sub.take k).length = k := by
        rw [List.length_take]
        omega
      have hne : sub.take k ≠ [] := by
        intro hnil
        rw [hnil] at hlen
        simp at hlen
        omega
      have hlast := getLast_of_suffix hsuf hne
      refine hstr k hkl hk0 ?_
      rw [← hlast]
      decide
  · intro k hk0 hkl hand
    obtain ⟨_, hpre2⟩ := hand
    have hlen : (sub.drop k).length = sub.length - k := List.length_drop _ _
    have hne : sub.drop k ≠ [] := by
      intro hnil
      rw [hnil] at hlen
      simp at hlen
      omega
    exact hhd k hkl hk0 (head_of_prefix_cons hpre2 hne)

/-! ## Auxiliary lemmas: binary detection and ranking on concrete inputs -/

/-- Every character of an all-NUL content is counted by the heuristic. -/
theorem filter_control_replicate (n : Nat) :
    (List.replicate n (Char.ofNat 0)).filter isControlChar =
      List.replicate n (Char.ofNat 0) := by
  induction n with
  | zero => rfl
  | succ k ih =>
    have hc : isControlChar (Char.ofNat 0) = true := by decide
    rw [List.replicate_succ, List.filter_cons, hc]
    simp [ih]

/-- A nonempty all-NUL content is classified binary. -/
theorem isBinaryContent_replicate {n : Nat} (hn : 0 < n) :
    isBinaryContent (List.replicate n (Char.ofNat 0)) = true := by
  simp only [isBinaryContent, filter_control_replicate, List.length_replicate,
    decide_eq_true_eq]
  omega

/-- The local reader truncates the long binary content and returns it. -/
theorem readFileContent_longBinary :
    readFileContent longBinaryContent =
      some (List.replicate 50000 (Char.ofNat 0) ++ truncationMarker) := by
  simp only [longBinaryContent, readFileContent, List.length_replicate]
  rw [if_pos (by norm_num)]
  rw [List.take_replicate]
  norm_num

/-- The remote path drops the same long binary content. -/
theorem processRemote_longBinary :
    processRemoteContent longBinaryContent = none := by
  simp only [longBinaryContent, processRemoteContent]
  rw [isBinaryContent_replicate (by norm_num : (0 : Nat) < 50001)]
  simp

/-- The truncated record produced from the long binary content is itself
classified binary: 50,000 of its 50,016 characters are control characters. -/
theorem isBinaryContent_truncated :
    isBinaryContent (List.replicate 50000 (Char.ofNat 0) ++ truncationMarker) = true := by
  have hm : truncationMarker.filter isControlChar = [] := by decide
  have hl : truncationMarker.length = 16 := by decide
  simp only [isBinaryContent, List.filter_append, filter_control_replicate, hm,
    List.length_append, List.length_replicate, List.append_nil, hl,
    decide_eq_true_eq]
  norm_num

/-- Ranking a single record is the identity. -/
theorem rankFiles_singleton (x : FileInfo) : rankFiles [x] = [x] := by
  simp only [rankFiles]
  apply List.mergeSort_of_sorted
  simp

/-! ## Claim theorems -/

/-- Claim C8: for every list of FileRecords, the ranked output of the sort used
by `analyzeLocalFolder` (and by the remote path) is a permutation of its
input, is sorted non-increasingly by `getFileImportanceScore` applied to each
record's path, and ranking is idempotent: sorting an already-ranked sequence
yields the same order. -/
theorem c8_rank_perm_sorted_idempotent (files : List FileInfo) :
    (rankFiles files).Perm files ∧
    (rankFiles files).Pairwise
      (fun a b => getFileImportanceScore b.path ≤ getFileImportanceScore a.path) ∧
    rankFiles (rankFiles files) = rankFiles files := by
  have hsorted : (rankFiles files).Pairwise
      (fun a b =>
        decide (getFileImportanceScore b.path ≤ getFileImportanceScore a.path) = true) := by
    simp only [rankFiles]
    apply List.sorted_mergeSort
    · intro a b c hab hbc
      have h1 := of_decide_eq_true hab
      have h2 := of_decide_eq_true hbc
      exact decide_eq_true (le_trans h2 h1)
    · intro a b
      rcases le_total (getFileImportanceScore b.path) (getFileImportanceScore a.path)
        with h | h
      · simp [h]
      · simp [h]
  refine ⟨?_, ?_, ?_⟩
  · simp only [rankFiles]
    exact List.mergeSort_perm files _
  · exact hsorted.imp (fun h => of_decide_eq_true h)
  · simp only [rankFiles] at hsorted ⊢
    exact List.mergeSort_of_sorted hsorted

/-- Claim C2 (counterexample): on the 50,001-NUL decoded content the remote
path (`processRemoteContent`, the content step of `fetchGithubFileContent`)
drops the content as binary while the local path (`readFileContent`)
truncates and keeps it, so the two ingestion paths do not produce the same
outcome on every decoded content. -/
theorem c2_counterexample_long_binary :
    processRemoteContent longBinaryContent ≠ readFileContent longBinaryContent := by
  rw [processRemote_longBinary, readFileContent_longBinary]
  exact fun h => Option.noConfusion h

/-- Claim C2 (amended): the remote and local content pipelines agree — same
binary drops, same truncations — on every decoded content except those that
are simultaneously longer than 50,000 characters and classified binary
(there the remote path drops and the local path truncates). -/
theorem c2_paths_agree (content : List Char)
    (h : ¬ (50000 < content.length ∧ isBinaryContent content = true)) :
    processRemoteContent content = readFileContent content := by
  simp only [processRemoteContent, readFileContent]
  by_cases hlen : 50000 < content.length
  · have hbin : isBinaryContent content = false := by
      cases hbc : isBinaryContent content
      · rfl
      · exact absurd ⟨hlen, hbc⟩ h
    simp [hlen, hbin]
  · simp [hlen]

/-- Claim C2 (witness): the two paths agree on a concrete short text. -/
theorem c2_paths_agree_witness :
    processRemoteContent ("ok".data) = readFileContent ("ok".data) :=
  c2_paths_agree ("ok".data) (by decide)

/-- Claim C1 (code bug): the invariant fails on the local path.  On a
50,001-NUL file the truncation branch of `readFileContent` returns before the
binary check ever runs, so `analyzeLocalFolder` constructs a FileRecord from
content classified binary by the §4.2 heuristic — and the record's stored
content is itself classified binary.  (The remote twin drops this content:
`processRemote_longBinary`.) -/
theorem c1_local_keeps_long_binary_file :
    isBinaryContent longBinaryContent = true ∧
    analyzeLocalFolder [FsEntry.file ("data.txt".data) 600 longBinaryContent] =
      [{ path := "data.txt".data,
         content := List.replicate 50000 (Char.ofNat 0) ++ truncationMarker,
         language := "unknown".data,
         size := 600 }] ∧
    isBinaryContent (List.replicate 50000 (Char.ofNat 0) ++ truncationMarker) = true := by
  refine ⟨isBinaryContent_replicate (by norm_num), ?_, isBinaryContent_truncated⟩
  have hjoin : joinPath [] ("data.txt".data) = "data.txt".data := by rfl
  have hskip : shouldSkipPath ("data.txt".data) = false := by decide
  have hinc : shouldIncludeFile ("data.txt".data) 600 = true := by decide
  have hlang : detectLanguage ("data.txt".data) = "unknown".data := by decide
  simp only [analyzeLocalFolder, walkItems, walkItem, hjoin, hskip, hinc,
    readFileContent_longBinary, hlang, Bool.false_eq_true, if_false, if_true,
    List.append_nil]
  exact rankFiles_singleton _

/-- A nonempty list has `isEmpty = false`. -/
theorem isEmpty_false_of_ne {l : List Char} (h : l ≠ []) : l.isEmpty = false := by
  cases l with
  | nil => exact absurd rfl h
  | cons c rest => rfl

/-- Claim C3 (counterexample): with `text_before = ""` and `text_after = "x"`
the split does not return `(trim text_before, trim text_after)`: the trimmed
first part is empty and therefore falsy, so the `|| specifications` fallback
makes the technical document the whole combined text instead of `""`. -/
theorem c3_counterexample_empty_before :
    (parseSpecifications (specMarker ++ "x".data) []).technicalSpec ≠ jsTrim [] := by
  decide

/-- Claim C3 (amended): provided the marker occurs in neither part and both
parts trim to nonempty text, splitting round-trips:
`parseSpecifications (before ++ marker ++ after)` yields technical
`trim before` and functional `trim after`.  (The counterexample forces the
nonemptiness provisos — the falsy-`""` fallbacks — and the no-occurrence
provisos — `split` cuts at the leftmost occurrences.) -/
theorem c3_split_roundtrip (before after : List Char) (files : List FileInfo)
    (hb : jsIncludes before specMarker = false)
    (ha : jsIncludes after specMarker = false)
    (hbt : jsTrim before ≠ [])
    (hat : jsTrim after ≠ []) :
    (parseSpecifications (before ++ specMarker ++ after) files).technicalSpec =
        jsTrim before ∧
    (parseSpecifications (before ++ specMarker ++ after) files).functionalSpec =
        jsTrim after := by
  have hsep : specMarker ≠ [] := by decide
  have h1 : splitFirst specMarker (before ++ (specMarker ++ after)) =
      some (before, after) :=
    splitFirst_append_first specMarker hsep specMarker_overlap_free before after
      ((jsIncludes_false_iff _ _).mp hb)
  have h2 : splitFirst specMarker after = none :=
    splitFirst_eq_none_of_absent specMarker hsep after ((jsIncludes_false_iff _ _).mp ha)
  rw [List.append_assoc]
  simp only [parseSpecifications, h1, h2, isEmpty_false_of_ne hbt,
    isEmpty_false_of_ne hat, Bool.false_eq_true, if_false]
  exact ⟨trivial, trivial⟩

/-- Claim C3 (witness): the round-trip at `text_before = "a"`,
`text_after = "b"`. -/
theorem c3_split_roundtrip_witness :
    (parseSpecifications ("a".data ++ specMarker ++ "b".data) []).technicalSpec =
        jsTrim ("a".data) ∧
    (parseSpecifications ("a".data ++ specMarker ++ "b".data) []).functionalSpec =
        jsTrim ("b".data) :=
  c3_split_roundtrip ("a".data) ("b".data) [] (by decide) (by decide) (by decide)
    (by decide)

/-- Claim C4 (counterexample): on the marker-free, whitespace-only combined
output `" "` the technical document is the untrimmed input — the empty trim
is falsy, so `|| specifications` restores the whole text — and not
`trim(combined)`. -/
theorem c4_counterexample_whitespace :
    (parseSpecifications (" ".data) []).technicalSpec ≠ jsTrim (" ".data) := by
  decide

/-- Claim C4 (amended): for every combined output not containing the marker,
the functional document is the one fixed, input-independent fallback
document, and the technical document is `trim(combined)` provided that trim
is nonempty (for whitespace-only input the untrimmed input is returned
instead). -/
theorem c4_marker_absent_fallback (combined : List Char) (files : List FileInfo)
    (h : jsIncludes combined specMarker = false) :
    (parseSpecifications combined files).functionalSpec = fallbackFunctionalSpec ∧
    (jsTrim combined ≠ [] →
      (parseSpecifications combined files).technicalSpec = jsTrim combined) := by
  have hsep : specMarker ≠ [] := by decide
  have h0 : splitFirst specMarker combined = none :=
    splitFirst_eq_none_of_absent specMarker hsep combined
      ((jsIncludes_false_iff _ _).mp h)
  constructor
  · simp only [parseSpecifications, h0]
  · intro hne
    simp only [parseSpecifications, h0, isEmpty_false_of_ne hne, Bool.false_eq_true,
      if_false]

/-- Claim C4 (witness): a concrete marker-free output yields the fallback
functional document and the trimmed technical document. -/
theorem c4_marker_absent_fallback_witness :
    (parseSpecifications ("t".data) []).functionalSpec = fallbackFunctionalSpec ∧
    (parseSpecifications ("t".data) []).technicalSpec = jsTrim ("t".data) :=
  ⟨(c4_marker_absent_fallback ("t".data) [] (by decide)).1,
   (c4_marker_absent_fallback ("t".data) [] (by decide)).2 (by decide)⟩

/-- Claim C7 (counterexample): when the review response lacks the separating
label `DOCUMENTATION ANALYSIS:`, the first component of the reviewed result
is the (label-stripped, trimmed) response, not the original input: the
response `"X"` replaces the original `"orig1"`. -/
theorem c7_counterexample_response_kept :
    (reviewAnalysisParse ("X".data) ("orig1".data) ("orig2".data)).1 ≠ "orig1".data := by
  decide

/-- Claim C7 (amended): when the review response does not contain the label
`DOCUMENTATION ANALYSIS:`, the second component degrades to the original
documentation analysis, but the first component is the response itself with
any `CODE ANALYSIS:` label removed and trimmed — the original code analysis
is used only when that text is empty. -/
theorem c7_label_absent (enhanced codeAnalysis docAnalysis : List Char)
    (h : jsIncludes enhanced docAnalysisLabel = false) :
    (reviewAnalysisParse enhanced codeAnalysis docAnalysis).2 = docAnalysis ∧
    (reviewAnalysisParse enhanced codeAnalysis docAnalysis).1 =
      (if (jsTrim (replaceFirst enhanced codeAnalysisLabel [])).isEmpty then codeAnalysis
       else jsTrim (replaceFirst enhanced codeAnalysisLabel [])) := by
  have hsep : docAnalysisLabel ≠ [] := by decide
  have h0 : splitFirst docAnalysisLabel enhanced = none :=
    splitFirst_eq_none_of_absent docAnalysisLabel hsep enhanced
      ((jsIncludes_false_iff _ _).mp h)
  constructor
  · simp only [reviewAnalysisParse, h0]
  · simp only [reviewAnalysisParse, h0]

/-- Claim C7 (witness): the degradation at a concrete label-free response. -/
theorem c7_label_absent_witness :
    (reviewAnalysisParse ("x".data) ("a".data) ("b".data)).2 = "b".data ∧
    (reviewAnalysisParse ("x".data) ("a".data) ("b".data)).1 =
      (if (jsTrim (replaceFirst ("x".data) codeAnalysisLabel [])).isEmpty then "a".data
       else jsTrim (replaceFirst ("x".data) codeAnalysisLabel [])) :=
  c7_label_absent ("x".data) ("a".data) ("b".data) (by decide)

/-- Claim C6 (counterexample): the delivery outcome is not recorded anywhere in
the result.  With `sendEmail = true` and a recipient supplied, the run whose
delivery capability fails returns exactly the same `AnalysisResult` and
progress trace as the run whose delivery succeeds — the `AnalysisResult`
metadata has no field in which `deliverySucceeded = false` could be
recorded. -/
theorem c6_counterexample_outcome_not_recorded :
    generateDocumentation (trivialCapabilities false) []
        ⟨"proj".data, none⟩ ⟨true, some ("user@example.com".data)⟩ =
      generateDocumentation (trivialCapabilities true) []
        ⟨"proj".data, none⟩ ⟨true, some ("user@example.com".data)⟩ := by
  rfl

/-- Claim C6 (amended): with `sendEmail = true` and a nonempty recipient, a run
whose delivery capability fails still completes normally — both documents are
returned and the progress trace ends at 100 — but delivery is not recorded as
unsuccessful in the result metadata: the run's entire output is independent
of the delivery capability, whose boolean result the coordinator discards. -/
theorem c6_delivery_failure_ignored (cap : PipelineCapabilities)
    (send1 send2 : List Char → List Char → List Char → List Char → Metadata → Bool)
    (files : List FileInfo) (projectInfo : ProjectInfo)
    (options : DocumentationOptions) (r : List Char)
    (hmail : options.sendEmail = true) (hr : options.recipientEmail = some r)
    (hne : r ≠ []) :
    generateDocumentation { cap with sendDocumentation := send1 } files projectInfo
        options =
      generateDocumentation { cap with sendDocumentation := send2 } files projectInfo
        options ∧
    ((generateDocumentation { cap with sendDocumentation := send1 } files projectInfo
        options).2.map Prod.snd).getLast? = some 100 := by
  constructor
  · rfl
  · simp [generateDocumentation, hmail, hr, jsTruthyString, isEmpty_false_of_ne hne]

/-- Claim C6 (witness): a concrete failing-delivery run equals the succeeding
one and ends at 100. -/
theorem c6_delivery_failure_ignored_witness :
    generateDocumentation { trivialCapabilities false with
        sendDocumentation := fun _ _ _ _ _ => false } [] ⟨"p".data, none⟩
        ⟨true, some ("a".data)⟩ =
      generateDocumentation { trivialCapabilities false with
        sendDocumentation := fun _ _ _ _ _ => true } [] ⟨"p".data, none⟩
        ⟨true, some ("a".data)⟩ ∧
    ((generateDocumentation { trivialCapabilities false with
        sendDocumentation := fun _ _ _ _ _ => false } [] ⟨"p".data, none⟩
        ⟨true, some ("a".data)⟩).2.map Prod.snd).getLast? = some 100 :=
  c6_delivery_failure_ignored (trivialCapabilities false) (fun _ _ _ _ _ => false)
    (fun _ _ _ _ _ => true) [] ⟨"p".data, none⟩ ⟨true, some ("a".data)⟩ ("a".data)
    rfl rfl (by decide)

/-- Claim C10: in local ingestion an entry (and with it its subtree) is
skipped exactly when its root-relative path contains one of the deny-list
fragments as a substring anywhere, or the whole relative path starts with
`'.'`; consequently `template.ts` (whose name contains the fragment `temp`)
yields no FileRecord from the walk, while the nested hidden path
`src/.hidden` is not skipped. -/
theorem c10_skip_semantics :
    (∀ p : List Char, shouldSkipPath p = true ↔
      ((∃ pattern ∈ skipPatterns, jsIncludes p pattern = true) ∨ p.head? = some '.')) ∧
    (∀ depth size content,
      walkItem [] depth (FsEntry.file ("template.ts".data) size content) = []) ∧
    shouldSkipPath ("src/.hidden".data) = false := by
  have hdot : ".".data = ['.'] := rfl
  refine ⟨fun p => ?_, fun depth size content => ?_, by decide⟩
  · rw [shouldSkipPath, List.any_eq_true]
    constructor
    · rintro ⟨pattern, hmem, hor⟩
      rw [Bool.or_eq_true] at hor
      rcases hor with h | h
      · exact Or.inl ⟨pattern, hmem, h⟩
      · right
        cases p with
        | nil => simp [jsStartsWith, hdot, List.isPrefixOf] at h
        | cons c rest =>
          rw [jsStartsWith, hdot, isPrefixOf_true] at h
          have hh := head_of_prefix_cons h (by decide)
          simp only [List.head?] at hh ⊢
          injection hh with hc
          rw [hc]
    · rintro (⟨pattern, hmem, h⟩ | h)
      · exact ⟨pattern, hmem, by rw [Bool.or_eq_true]; exact Or.inl h⟩
      · refine ⟨"node_modules".data, by decide, ?_⟩
        rw [Bool.or_eq_true]
        right
        cases p with
        | nil => simp at h
        | cons c rest =>
          simp only [List.head?, Option.some.injEq] at h
          rw [jsStartsWith, hdot, isPrefixOf_true, h]
          exact ⟨rest, rfl⟩
  · have hskipT : shouldSkipPath ("template.ts".data) = true := by decide
    simp [walkItem, joinPath, hskipT]

/-- Claim C9: across one successful run through the outer wrapper — which
emits 5 and 10 and rescales every inner stage percentage by
`10 + progress * 0.9` — the sequence of percentages handed to the progress
callback is monotonically non-decreasing and the final invocation carries
exactly 100. -/
theorem c9_progress_monotone_to_100 (cap : PipelineCapabilities) (status : Nat)
    (statusText : List Char) (entries : List TreeEntry)
    (blobs : Nat → Option DecodedBlob) (projectInfo : ProjectInfo)
    (options : DocumentationOptions) :
    List.Chain' (fun p q : ℚ => p ≤ q)
      ((generateFromGithub cap ⟨true, status, statusText, entries⟩ blobs projectInfo
          options).2.map Prod.snd) ∧
    ((generateFromGithub cap ⟨true, status, statusText, entries⟩ blobs projectInfo
          options).2.map Prod.snd).getLast? = some 100 := by
  cases hE : options.sendEmail && jsTruthyString options.recipientEmail with
  | false =>
    constructor
    · simp only [generateFromGithub, analyzeGithubRepo, fetchGithubRepoContents,
        generateDocumentation, hE, if_true, if_false, Bool.false_eq_true,
        List.cons_append, List.nil_append, List.map_cons, List.map_nil,
        List.chain'_cons, List.chain'_singleton]
      norm_num
    · simp only [generateFromGithub, analyzeGithubRepo, fetchGithubRepoContents,
        generateDocumentation, hE, if_true, if_false, Bool.false_eq_true,
        List.cons_append, List.nil_append, List.map_cons, List.map_nil]
      norm_num
  | true =>
    constructor
    · simp only [generateFromGithub, analyzeGithubRepo, fetchGithubRepoContents,
        generateDocumentation, hE, if_true, if_false, Bool.false_eq_true,
        List.cons_append, List.nil_append, List.map_cons, List.map_nil,
        List.chain'_cons, List.chain'_singleton]
      norm_num
    · simp only [generateFromGithub, analyzeGithubRepo, fetchGithubRepoContents,
        generateDocumentation, hE, if_true, if_false, Bool.false_eq_true,
        List.cons_append, List.nil_append, List.map_cons, List.map_nil]
      norm_num

/-- Claim C5 (counterexample): a forbidden (403) tree-listing response is
classified as the authentication failure, not as
`RepositoryNotFoundOrAccessDenied` as the claim states: the catch block maps
both `401` and `403` to the authentication message, and only `404` to
not-found-or-access-denied. -/
theorem c5_counterexample_forbidden :
    analyzeGithubRepo ⟨false, 403, "Forbidden".data, []⟩ (fun _ => none) =
      .error RepoError.authenticationRequired ∧
    RepoError.authenticationRequired ≠ RepoError.repositoryNotFoundOrAccessDenied := by
  exact ⟨rfl, by decide⟩

/-- Claim C5 (amended): with a status text free of the digit strings `404`,
`401` and `403` (as all standard reason phrases are), a non-success tree
listing is classified by status as: not-found (404) →
`RepositoryNotFoundOrAccessDenied`; unauthorized (401) or forbidden (403) →
`AuthenticationRequired`; any other non-success status whose decimal digits
also avoid those strings → the generic failure carrying the status-bearing
transport message.  In every case the outcome is an error, so no FileRecords
are produced. -/
theorem c5_status_classification (statusText : List Char) (entries : List TreeEntry)
    (blobs : Nat → Option DecodedBlob) (status : Nat)
    (h4 : jsIncludes statusText ("404".data) = false)
    (h1 : jsIncludes statusText ("401".data) = false)
    (h3 : jsIncludes statusText ("403".data) = false)
    (hs4 : jsIncludes ((Nat.repr status).data) ("404".data) = false)
    (hs1 : jsIncludes ((Nat.repr status).data) ("401".data) = false)
    (hs3 : jsIncludes ((Nat.repr status).data) ("403".data) = false) :
    analyzeGithubRepo ⟨false, 404, statusText, entries⟩ blobs =
      .error RepoError.repositoryNotFoundOrAccessDenied ∧
    analyzeGithubRepo ⟨false, 401, statusText, entries⟩ blobs =
      .error RepoError.authenticationRequired ∧
    analyzeGithubRepo ⟨false, 403, statusText, entries⟩ blobs =
      .error RepoError.authenticationRequired ∧
    analyzeGithubRepo ⟨false, status, statusText, entries⟩ blobs =
      .error (RepoError.other (githubErrorMessage status statusText)) := by
  have t404 : jsIncludes (githubErrorMessage 404 statusText) ("404".data) = true := by
    rw [jsIncludes_iff]
    unfold githubErrorMessage
    apply occurs_append_left
    decide
  have t401 : jsIncludes (githubErrorMessage 401 statusText) ("401".data) = true := by
    rw [jsIncludes_iff]
    unfold githubErrorMessage
    apply occurs_append_left
    decide
  have t403 : jsIncludes (githubErrorMessage 403 statusText) ("403".data) = true := by
    rw [jsIncludes_iff]
    unfold githubErrorMessage
    apply occurs_append_left
    decide
  have f401 : jsIncludes (githubErrorMessage 401 statusText) ("404".data) = false :=
    message_no_sub ("404".data) statusText 401 (by decide) (by decide) h4 (by decide)
      (by decide) (by decide)
  have f403 : jsIncludes (githubErrorMessage 403 statusText) ("404".data) = false :=
    message_no_sub ("404".data) statusText 403 (by decide) (by decide) h4 (by decide)
      (by decide) (by decide)
  have fS4 : jsIncludes (githubErrorMessage status statusText) ("404".data) = false :=
    message_no_sub ("404".data) statusText status (by decide) hs4 h4 (by decide)
      (by decide) (by decide)
  have fS1 : jsIncludes (githubErrorMessage status statusText) ("401".data) = false :=
    message_no_sub ("401".data) statusText status (by decide) hs1 h1 (by decide)
      (by decide) (by decide)
  have fS3 : jsIncludes (githubErrorMessage status statusText) ("403".data) = false :=
    message_no_sub ("403".data) statusText status (by decide) hs3 h3 (by decide)
      (by decide) (by decide)
  refine ⟨?_, ?_, ?_, ?_⟩
  · simp only [analyzeGithubRepo, fetchGithubRepoContents, Bool.false_eq_true,
      if_false, classifyAnalyzeError, t404, if_true]
  · simp only [analyzeGithubRepo, fetchGithubRepoContents, Bool.false_eq_true,
      if_false, classifyAnalyzeError, f401, t401, Bool.true_or, if_true]
  · simp only [analyzeGithubRepo, fetchGithubRepoContents, Bool.false_eq_true,
      if_false, classifyAnalyzeError, f403, t403, Bool.or_true, if_true]
  · simp only [analyzeGithubRepo, fetchGithubRepoContents, Bool.false_eq_true,
      if_false, classifyAnalyzeError, fS4, fS1, fS3, Bool.or_self]

/-- Claim C5 (witness): classification at the standard reason phrase
`Service Unavailable` and the representative generic status 500. -/
theorem c5_status_classification_witness :
    analyzeGithubRepo ⟨false, 404, "Service Unavailable".data, []⟩ (fun _ => none) =
      .error RepoError.repositoryNotFoundOrAccessDenied ∧
    analyzeGithubRepo ⟨false, 401, "Service Unavailable".data, []⟩ (fun _ => none) =
      .error RepoError.authenticationRequired ∧
    analyzeGithubRepo ⟨false, 403, "Service Unavailable".data, []⟩ (fun _ => none) =
      .error RepoError.authenticationRequired ∧
    analyzeGithubRepo ⟨false, 500, "Service Unavailable".data, []⟩ (fun _ => none) =
      .error (RepoError.other (githubErrorMessage 500 ("Service Unavailable".data))) :=
  c5_status_classification ("Service Unavailable".data) [] (fun _ => none) 500
    (by decide) (by decide) (by decide) (by decide) (by decide) (by decide)
